import Mathlib

/-!
Shallow embedding of the ChipsScreenController command codec and chunked
transfer engine (src/color.rs, src/errors.rs, src/device.rs).

Machine integers are modelled as follows:
* `u8` / `u16` values are `Nat`, with `% 256` / `% 65536` at the points where
  the source performs an `as u8` / `as u16` cast;
* `i32` values are `Int`; the i32 arithmetic shift `>>` is floor division
  (`sar`), the mask `x & (2^k - 1)` is the Euclidean remainder (`lowBits`),
  and `as u8` is the low byte (`asU8`).  The i32 values reaching these
  operations in the source are small, so unbounded `Int` arithmetic agrees
  with two's-complement i32 arithmetic on them;
* byte buffers are `List Nat`; a transport write is modelled by returning the
  written buffer.  A Rust slice-indexing panic is modelled by the `crashed`
  status.
-/

namespace Chips

/-- Screen constants of the target peripheral model (src/device.rs). -/
def SCREEN_WIDTH : Int := 800

/-- Screen height constant (src/device.rs). -/
def SCREEN_HEIGHT : Int := 480

/-- Bytes per pixel (src/device.rs `PIXEL_DEPTH`). -/
def PIXEL_DEPTH : Nat := 2

/-- Error type (src/errors.rs `ChipsError`).  Only the variants the modelled
core can produce are included; `BoundsTooLarge` is the variant
`src/device.rs` returns from `draw_pixels`. -/
inductive ChipsError where
  | InvalidLength (received : Nat) (expected : Nat)
  | ImageTooLarge
  | BoundsTooLarge
  deriving DecidableEq, Repr

/-- Outcome of a drawing call: `done` models `Ok(())`, `failed e` models
`Err(e)`, and `crashed` models a Rust slice-bounds panic. -/
inductive Status where
  | done
  | failed (e : ChipsError)
  | crashed
  deriving DecidableEq, Repr

/-- The i32 arithmetic right shift `x >> k` (floor division by `2^k`). -/
def sar (x : Int) (k : Nat) : Int := Int.fdiv x (2 ^ k)

/-- The i32 mask `x & (2^k - 1)`: the low `k` bits of the two's-complement
representation, i.e. the Euclidean remainder mod `2^k`. -/
def lowBits (x : Int) (k : Nat) : Int := Int.emod x (2 ^ k)

/-- The cast `x as u8` on an i32: the low byte of the two's-complement
representation. -/
def asU8 (x : Int) : Nat := (Int.emod x 256).toNat

/-- Color (src/color.rs): an (r, g, b) triple of u8 channels. -/
structure Color where
  r : Nat
  g : Nat
  b : Nat
  deriving DecidableEq, Repr

/-- src/color.rs `Color::as_serial`:
`((r as i32) << 8 & 63488 | (g as i32) << 3 & 2016 | (b as i32) >> 3) as u16`.
All intermediates are nonnegative, so the i32 arithmetic is `Nat`
arithmetic; the final `as u16` cast is `% 65536`. -/
def Color.as_serial (c : Color) : Nat :=
  (((c.r <<< 8) &&& 63488) ||| ((c.g <<< 3) &&& 2016) ||| (c.b >>> 3)) % 65536

/-- The 5-6-5 packing formula as the spec states it (§3):
`((r & 0xF8) << 8) | ((g & 0xFC) << 3) | (b >> 3)`.  Companion definition for
the refinement claim about `Color.as_serial`. -/
def serial_spec (r g b : Nat) : Nat :=
  ((r &&& 248) <<< 8) ||| ((g &&& 252) <<< 3) ||| (b >>> 3)

/-- The six header-byte writes of src/device.rs `send_command_delayed`:
`data[0] = (left >> 2) as u8`,
`data[1] = (((left & 3) << 6) + (top >> 4)) as u8`,
`data[2] = (((top & 15) << 4) + (right >> 6)) as u8`,
`data[3] = (((right & 63) << 2) + (bottom >> 8)) as u8`,
`data[4] = (bottom & 255) as u8`, `data[5] = command_code`. -/
def set_compact_header (command_code : Nat) (left top right bottom : Int)
    (data : List Nat) : List Nat :=
  (((((data.set 0 (asU8 (sar left 2))).set
    1 (asU8 (lowBits left 2 * 64 + sar top 4))).set
    2 (asU8 (lowBits top 4 * 16 + sar right 6))).set
    3 (asU8 (lowBits right 6 * 4 + sar bottom 8))).set
    4 (lowBits bottom 8).toNat).set
    5 command_code

/-- src/device.rs `send_command_delayed`: after the length check, writes the
6-byte compact header into `data[0..6]` and sends the buffer.  The write of
the buffer to the serial port is modelled by returning the final buffer. -/
def send_command_delayed (command_code : Nat) (left top right bottom : Int)
    (data : List Nat) : Except ChipsError (List Nat) :=
  if data.length < 6 then
    .error (.InvalidLength data.length 6)
  else
    .ok (set_compact_header command_code left top right bottom data)

/-- src/device.rs `send_command`: `send_command_delayed` with a 5 ms delay
(the delay is timing only and is not modelled). -/
def send_command (command_code : Nat) (left top right bottom : Int)
    (data : List Nat) : Except ChipsError (List Nat) :=
  send_command_delayed command_code left top right bottom data

/-- src/device.rs `send_command_simple`: compact-header command with a fresh
6-byte zero buffer. -/
def send_command_simple (command_code : Nat) (left top right bottom : Int) :
    Except ChipsError (List Nat) :=
  send_command_delayed command_code left top right bottom (List.replicate 6 0)

/-- Modelled from the spec (§8): the test-harness decoder that recovers
(left, top, right, bottom) from the five compact-header bytes by inverting
the bit formulas.  No decoder exists in the source; the spec describes it for
the round-trip property. -/
def decode5 (frame : List Nat) : Nat × Nat × Nat × Nat :=
  let b0 := frame.getD 0 0
  let b1 := frame.getD 1 0
  let b2 := frame.getD 2 0
  let b3 := frame.getD 3 0
  let b4 := frame.getD 4 0
  (b0 * 4 + b1 / 64, (b1 % 16) * 16 + b2 / 16, (b2 % 16) * 64 + b3 / 4,
    (b3 % 4) * 256 + b4)

/-- src/device.rs `kd_draw_buf`: writes the 12-byte extended header into
`data[0..12]` and sends the buffer.  All call sites pass a buffer of length
12 or 64, so the index writes are always in bounds. -/
def kd_draw_buf (command_code : Nat) (left top right bottom color : Int)
    (ecc : Nat) (data : List Nat) : List Nat :=
  (((((((((((data.set 0 (asU8 (sar left 8))).set
    1 ((lowBits left 8).toNat)).set
    2 (asU8 (sar top 8))).set
    3 ((lowBits top 8).toNat)).set
    4 (asU8 (sar right 8))).set
    5 ((lowBits right 8).toNat)).set
    6 (asU8 (sar bottom 8))).set
    7 ((lowBits bottom 8).toNat)).set
    8 (asU8 (sar color 8))).set
    9 ((lowBits color 8).toNat)).set
    10 ecc).set
    11 command_code

/-- The dual-color hint byte computed by `draw_bar_graph` / `draw_line_graph`:
`((((fg16 as i32) >> 2) + 2 & 15) | (((bg16 as i32) >> 3) + 3 & 240)) as u8`.
All intermediates are nonnegative. -/
def ecc_of (color_fg_16 color_bg_16 : Nat) : Nat :=
  ((((color_fg_16 >>> 2) + 2) &&& 15) ||| (((color_bg_16 >>> 3) + 3) &&& 240)) % 256

/-- Rust slice indexing `&v[s..e]`: `none` models the out-of-bounds panic. -/
def rustSlice (v : List Nat) (s e : Nat) : Option (List Nat) :=
  if s ≤ e ∧ e ≤ v.length then some ((v.drop s).take (e - s)) else none

/-- Rust `buf[off..off+src.len()].copy_from_slice(src)`: replaces that
subrange of `buf` by `src`; `none` models the out-of-bounds panic. -/
def copyInto (buf : List Nat) (off : Nat) (src : List Nat) : Option (List Nat) :=
  if off + src.length ≤ buf.length then
    some (buf.take off ++ src ++ buf.drop (off + src.length))
  else none

/-- One chunk of a chunked transfer: the 64-byte frame as written to the
port, and the payload slice that was copied into it (the exact
`copy_from_slice` source, overlap sample included for line graphs). -/
structure Chunk where
  frame : List Nat
  slice : List Nat
  deriving DecidableEq, Repr

/-- The `while` loop of src/device.rs `draw_pixels_raw`.  `chunk_size = 64`,
`chunk_reserved = 8`, `chunk_offset = 56`.  The 64-byte buffer is allocated
once by the caller and reused across iterations (`buf` is threaded through),
and the `right` variable persists across iterations as in the source.  The
`right1 = 0` recursion guard is unreachable from the entry state
(`right = 56`); in the source that state would loop forever. -/
def draw_pixels_raw_loop (offset_x offset_y : Int) (coordinates : List Nat)
    (source_index right : Nat) (buf : List Nat) : List Chunk × Status :=
  if h : source_index < coordinates.length then
    -- if source_index + chunk_offset > coordinates.len() { right = ... }
    let right1 := if coordinates.length < source_index + 56 then
      coordinates.length - source_index else right
    -- let copy_len = right;
    -- buf[8..(8 + copy_len)].copy_from_slice(&coordinates[source_index..(source_index + copy_len)])
    match rustSlice coordinates source_index (source_index + right1) with
    | none => ([], .crashed)
    | some slice =>
      match copyInto buf 8 slice with
      | none => ([], .crashed)
      | some buf1 =>
        match send_command 195 offset_x offset_y (right1 : Int) 0 buf1 with
        | .error e => ([], .failed e)
        | .ok buf2 =>
          if h2 : 0 < right1 then
            let rest := draw_pixels_raw_loop offset_x offset_y coordinates
              (source_index + right1) right1 buf2
            (⟨buf2, slice⟩ :: rest.1, rest.2)
          else ([], .crashed)
  else ([], .done)
termination_by coordinates.length - source_index
decreasing_by omega

/-- src/device.rs `draw_pixels_raw`: sets the two color bytes into a fresh
64-byte buffer and runs the chunk loop with `source_index = 0`,
`right = chunk_offset = 56`. -/
def draw_pixels_raw (offset_x offset_y : Int) (color : Color)
    (coordinates : List Nat) : List Chunk × Status :=
  let color_16 := color.as_serial
  let buf := ((List.replicate 64 0).set 6 ((color_16 >>> 8) % 256)).set
    7 (color_16 &&& 255)
  draw_pixels_raw_loop offset_x offset_y coordinates 0 56 buf

/-- The near-point byte list built by the partition loop of
src/device.rs `draw_pixels` (`list_1`): points with both coordinates `< 256`,
each encoded as an `(x as u8, y as u8)` pair in input order. -/
def near_list (points : List (Int × Int)) : List Nat :=
  (points.filter fun p => p.1 < 256 && p.2 < 256).flatMap fun p =>
    [asU8 p.1, asU8 p.2]

/-- The far-point list built by the partition loop of src/device.rs
`draw_pixels` (`source`): points with either coordinate `≥ 256`, in input
order. -/
def far_source (points : List (Int × Int)) : List (Int × Int) :=
  points.filter fun p => !(p.1 < 256 && p.2 < 256)

/-- src/device.rs `draw_pixels`.  Returns the chunks actually written to the
port (near-subset transfer first, then the far-subset transfer) and the
call's outcome; on `BoundsTooLarge` the near chunks have already been
written. -/
def draw_pixels (color : Color) (points : List (Int × Int)) :
    List Chunk × Status :=
  if points.length = 0 then ([], .done)
  else
    let list_1 := near_list points
    let source := far_source points
    let res1 := draw_pixels_raw 0 0 color list_1
    match res1.2 with
    | .done =>
      if source.length = 0 then (res1.1, .done)
      else
        -- offset_x = source.iter().map(|p| p.0).min().unwrap_or_default()
        let offset_x := ((source.map Prod.fst).min?).getD 0
        if source.any fun p => 255 < p.1 - offset_x then
          (res1.1, .failed .BoundsTooLarge)
        else
          let offset_y := ((source.map Prod.snd).min?).getD 0
          if source.any fun p => 255 < p.2 - offset_y then
            (res1.1, .failed .BoundsTooLarge)
          else
            let list_2 := source.flatMap fun p =>
              [asU8 (p.1 - offset_x), asU8 (p.2 - offset_y)]
            let res2 := draw_pixels_raw offset_x offset_y color list_2
            (res1.1 ++ res2.1, res2.2)
    | st => (res1.1, st)

/-- The `while` loop of src/device.rs `draw_bar_graph`.  `chunk_size = 64`,
`chunk_reserved = 12`, `chunk_offset = 52`; a fresh zeroed 64-byte buffer is
allocated on every iteration.  `left = x as usize + source_index` is modelled
as `x + source_index` (exact for `0 ≤ x`, and only header bytes depend on
it). -/
def draw_bar_graph_loop (x y : Int) (count : Nat)
    (color_bg_16 color_fg_16 : Nat) (ecc : Nat) (data : List Nat)
    (source_index : Nat) : List Chunk × Status :=
  if h : source_index < count then
    let right := if count < source_index + 52 then count - source_index else 52
    let left : Int := x + source_index
    match rustSlice data source_index (source_index + right) with
    | none => ([], .crashed)
    | some slice =>
      match copyInto (List.replicate 64 0) 12 slice with
      | none => ([], .crashed)
      | some buf1 =>
        let frame := kd_draw_buf 137 left y (right : Int) (color_bg_16 : Int)
          (color_fg_16 : Int) ecc buf1
        let rest := draw_bar_graph_loop x y count color_bg_16 color_fg_16 ecc
          data (source_index + right)
        (⟨frame, slice⟩ :: rest.1, rest.2)
  else ([], .done)
termination_by count - source_index
decreasing_by split <;> omega

/-- src/device.rs `draw_bar_graph` (command code 137; the trailing 5 ms sleep
is timing only). -/
def draw_bar_graph (x y : Int) (count : Nat) (color_bg color_fg : Color)
    (data : List Nat) : List Chunk × Status :=
  draw_bar_graph_loop x y count color_bg.as_serial color_fg.as_serial
    (ecc_of color_fg.as_serial color_bg.as_serial) data 0

/-- The `while` loop of src/device.rs `draw_line_graph`.  `chunk_size = 64`,
`chunk_reserved = 12`, `chunk_offset = 64 - 12 - 1 = 51`; each chunk copies
`copy_len = right + 1` bytes (one extra trailing overlap sample), and the
first chunk's `left` field has bit 15 set (`left | 32768`). -/
def draw_line_graph_loop (x y : Int) (count : Nat)
    (color_bg_16 color_fg_16 : Nat) (ecc : Nat) (data : List Nat)
    (source_index : Nat) : List Chunk × Status :=
  if h : source_index < count then
    let right := if count < source_index + 51 then count - source_index else 51
    let left : Int := x + source_index + 1
    -- let copy_len = right + 1;
    match rustSlice data source_index (source_index + (right + 1)) with
    | none => ([], .crashed)
    | some slice =>
      match copyInto (List.replicate 64 0) 12 slice with
      | none => ([], .crashed)
      | some buf1 =>
        let frame :=
          if source_index = 0 then
            kd_draw_buf 144 (Int.lor left 32768) y (right : Int)
              (color_bg_16 : Int) (color_fg_16 : Int) ecc buf1
          else
            kd_draw_buf 144 left y (right : Int) (color_bg_16 : Int)
              (color_fg_16 : Int) ecc buf1
        let rest := draw_line_graph_loop x y count color_bg_16 color_fg_16 ecc
          data (source_index + right)
        (⟨frame, slice⟩ :: rest.1, rest.2)
  else ([], .done)
termination_by count - source_index
decreasing_by split <;> omega

/-- src/device.rs `draw_line_graph` (command code 144; the trailing 5 ms
sleep is timing only). -/
def draw_line_graph (x y : Int) (count : Nat) (color_bg color_fg : Color)
    (data : List Nat) : List Chunk × Status :=
  draw_line_graph_loop x y count color_bg.as_serial color_fg.as_serial
    (ecc_of color_fg.as_serial color_bg.as_serial) data 0

/-- A decoded RGB raster (the `RgbImage` consumed by
src/device.rs `image_to_buffer`): `pixel x y` is `get_pixel(x, y)`, an
(r, g, b) triple of u8 channels. -/
structure RgbImage where
  width : Nat
  height : Nat
  pixel : Nat → Nat → Nat × Nat × Nat

/-- src/device.rs `image_to_buffer`: fills a zeroed buffer of
`PIXEL_DEPTH * width * height` bytes; for each pixel the packed RGB565 value
`(r >> 3) << 11 | (g >> 2) << 5 | (b >> 3)` is written at
`idx = x * PIXEL_DEPTH + (PIXEL_DEPTH * width) * y` as
`buf[idx] = pixel_16 & 255; buf[idx + 1] = (pixel_16 >> 8) as u8`. -/
def image_to_buffer (image : RgbImage) : List Nat :=
  (List.range image.height).foldl (fun buf y =>
    (List.range image.width).foldl (fun buf x =>
      let p := image.pixel x y
      let pixel_16 := ((p.1 >>> 3) <<< 11) ||| ((p.2.1 >>> 2) <<< 5) |||
        (p.2.2 >>> 3)
      let idx := x * PIXEL_DEPTH + (PIXEL_DEPTH * image.width) * y
      (buf.set idx (pixel_16 &&& 255)).set (idx + 1) ((pixel_16 >>> 8) % 256))
      buf)
    (List.replicate (PIXEL_DEPTH * image.width * image.height) 0)

/-- src/device.rs `draw_image`: bounds-check against the screen extent, then
lower the raster and send the region-select command followed by the pixel
buffer.  Returns the buffers written to the port and the outcome; on
`ImageTooLarge` nothing has been converted or written.  The casts
`image.width() as i32` / `image.height() as i32` are modelled as `Int`
coercions (exact for dimensions below `2^31`). -/
def draw_image (image : RgbImage) (x y : Int) : List (List Nat) × Status :=
  let width : Int := image.width
  let height : Int := image.height
  if SCREEN_WIDTH < width + x ∨ SCREEN_HEIGHT < height + y then
    ([], .failed .ImageTooLarge)
  else
    let buf := image_to_buffer image
    match send_command_simple 197 x y (x + width - 1) (y + height - 1) with
    | .error e => ([], .failed e)
    | .ok f => ([f, buf], .done)

/-! ### Arithmetic helper lemmas -/

theorem sar_natCast (n k : Nat) : sar (n : Int) k = ((n / 2 ^ k : Nat) : Int) := by
  unfold sar
  rw [show ((2 : Int) ^ k) = ((2 ^ k : Nat) : Int) by push_cast; ring]
  rw [Int.fdiv_eq_ediv _ (by positivity)]
  exact (Int.natCast_div n (2 ^ k)).symm

theorem lowBits_natCast (n k : Nat) :
    lowBits (n : Int) k = ((n % 2 ^ k : Nat) : Int) := by
  unfold lowBits
  rw [show ((2 : Int) ^ k) = ((2 ^ k : Nat) : Int) by push_cast; ring]
  exact (Int.ofNat_emod n (2 ^ k)).symm

theorem asU8_natCast (n : Nat) : asU8 (n : Int) = n % 256 := by
  unfold asU8
  have h : Int.emod (n : Int) 256 = ((n % 256 : Nat) : Int) := Int.ofNat_emod n 256
  rw [h]
  exact Int.toNat_ofNat _

/-! ### Compact-header codec lemmas -/

theorem send_command_delayed_ok (command_code : Nat) (left top right bottom : Int)
    (data : List Nat) (h : 6 ≤ data.length) :
    send_command_delayed command_code left top right bottom data =
      .ok (set_compact_header command_code left top right bottom data) := by
  unfold send_command_delayed
  rw [if_neg (by omega)]

theorem set_compact_header_length (command_code : Nat)
    (left top right bottom : Int) (data : List Nat) :
    (set_compact_header command_code left top right bottom data).length =
      data.length := by
  unfold set_compact_header
  simp [List.length_set]

theorem getD_set_self (l : List Nat) (i v : Nat) (h : i < l.length) :
    (l.set i v).getD i 0 = v := by
  simp [List.getD_eq_getElem?_getD, List.getElem?_set, h]

theorem getD_set_ne (l : List Nat) (i j v : Nat) (h : i ≠ j) :
    (l.set i v).getD j 0 = l.getD j 0 := by
  simp [List.getD_eq_getElem?_getD, List.getElem?_set_ne h]

theorem decode5_send_command (command_code : Nat) (l t r b : Nat)
    (data out : List Nat) (hdata : 6 ≤ data.length)
    (hl : l ≤ 1023) (ht : t ≤ 255) (hr : r ≤ 255) (hb : b ≤ 1023)
    (hout : send_command_delayed command_code (l : Int) (t : Int) (r : Int)
      (b : Int) data = .ok out) :
    decode5 out = (l, t, r, b) := by
  rw [send_command_delayed_ok _ _ _ _ _ _ hdata] at hout
  simp only [Except.ok.injEq] at hout
  subst hout
  unfold set_compact_header
  have e0 : asU8 (sar (l : Int) 2) = l / 4 % 256 := by
    rw [sar_natCast, asU8_natCast]
    norm_num
  have e1 : asU8 (lowBits (l : Int) 2 * 64 + sar (t : Int) 4) =
      (l % 4 * 64 + t / 16) % 256 := by
    rw [lowBits_natCast, sar_natCast]
    rw [show ((l % 2 ^ 2 : Nat) : Int) * 64 + ((t / 2 ^ 4 : Nat) : Int) =
      (((l % 4 * 64 + t / 16 : Nat)) : Int) by push_cast; norm_num]
    rw [asU8_natCast]
  have e2 : asU8 (lowBits (t : Int) 4 * 16 + sar (r : Int) 6) =
      (t % 16 * 16 + r / 64) % 256 := by
    rw [lowBits_natCast, sar_natCast]
    rw [show ((t % 2 ^ 4 : Nat) : Int) * 16 + ((r / 2 ^ 6 : Nat) : Int) =
      (((t % 16 * 16 + r / 64 : Nat)) : Int) by push_cast; norm_num]
    rw [asU8_natCast]
  have e3 : asU8 (lowBits (r : Int) 6 * 4 + sar (b : Int) 8) =
      (r % 64 * 4 + b / 256) % 256 := by
    rw [lowBits_natCast, sar_natCast]
    rw [show ((r % 2 ^ 6 : Nat) : Int) * 4 + ((b / 2 ^ 8 : Nat) : Int) =
      (((r % 64 * 4 + b / 256 : Nat)) : Int) by push_cast; norm_num]
    rw [asU8_natCast]
  have e4 : (lowBits (b : Int) 8).toNat = b % 256 := by
    rw [lowBits_natCast, Int.toNat_ofNat]
    norm_num
  rw [e0, e1, e2, e3, e4]
  have hB0 : ∀ v0 v1 v2 v3 v4 v5 : Nat,
      ((((((data.set 0 v0).set 1 v1).set 2 v2).set 3 v3).set 4 v4).set 5 v5).getD
        0 0 = v0 := by
    intro v0 v1 v2 v3 v4 v5
    rw [getD_set_ne _ _ _ _ (by decide), getD_set_ne _ _ _ _ (by decide),
      getD_set_ne _ _ _ _ (by decide), getD_set_ne _ _ _ _ (by decide),
      getD_set_ne _ _ _ _ (by decide),
      getD_set_self _ _ _ (by omega)]
  have hB1 : ∀ v0 v1 v2 v3 v4 v5 : Nat,
      ((((((data.set 0 v0).set 1 v1).set 2 v2).set 3 v3).set 4 v4).set 5 v5).getD
        1 0 = v1 := by
    intro v0 v1 v2 v3 v4 v5
    rw [getD_set_ne _ _ _ _ (by decide), getD_set_ne _ _ _ _ (by decide),
      getD_set_ne _ _ _ _ (by decide), getD_set_ne _ _ _ _ (by decide),
      getD_set_self _ _ _ (by simp [List.length_set]; omega)]
  have hB2 : ∀ v0 v1 v2 v3 v4 v5 : Nat,
      ((((((data.set 0 v0).set 1 v1).set 2 v2).set 3 v3).set 4 v4).set 5 v5).getD
        2 0 = v2 := by
    intro v0 v1 v2 v3 v4 v5
    rw [getD_set_ne _ _ _ _ (by decide), getD_set_ne _ _ _ _ (by decide),
      getD_set_ne _ _ _ _ (by decide),
      getD_set_self _ _ _ (by simp [List.length_set]; omega)]
  have hB3 : ∀ v0 v1 v2 v3 v4 v5 : Nat,
      ((((((data.set 0 v0).set 1 v1).set 2 v2).set 3 v3).set 4 v4).set 5 v5).getD
        3 0 = v3 := by
    intro v0 v1 v2 v3 v4 v5
    rw [getD_set_ne _ _ _ _ (by decide), getD_set_ne _ _ _ _ (by decide),
      getD_set_self _ _ _ (by simp [List.length_set]; omega)]
  have hB4 : ∀ v0 v1 v2 v3 v4 v5 : Nat,
      ((((((data.set 0 v0).set 1 v1).set 2 v2).set 3 v3).set 4 v4).set 5 v5).getD
        4 0 = v4 := by
    intro v0 v1 v2 v3 v4 v5
    rw [getD_set_ne _ _ _ _ (by decide),
      getD_set_self _ _ _ (by simp [List.length_set]; omega)]
  unfold decode5
  rw [hB0, hB1, hB2, hB3, hB4]
  simp only [Prod.mk.injEq]
  refine ⟨?_, ?_, ?_, ?_⟩ <;> omega

/-- C8: for all left in [0, 1023], top in [0, 255], right in [0, 255],
bottom in [0, 1023], the 5 header bytes produced by the compact-header
encoding of `send_command_delayed` determine the inputs uniquely: the
inverse bit formulas (`decode5`) recover (left, top, right, bottom)
exactly. -/
theorem compact_header_roundtrip (command_code : Nat) (l t r b : Nat)
    (hl : l ≤ 1023) (ht : t ≤ 255) (hr : r ≤ 255) (hb : b ≤ 1023)
    (out : List Nat)
    (hout : send_command_delayed command_code (l : Int) (t : Int) (r : Int)
      (b : Int) (List.replicate 6 0) = .ok out) :
    decode5 out = (l, t, r, b) :=
  decode5_send_command command_code l t r b (List.replicate 6 0) out
    (by simp) hl ht hr hb hout

set_option maxRecDepth 8000 in
/-- Witness for C8 at (left, top, right, bottom) = (1000, 200, 100, 999)
with command code 195. -/
theorem compact_header_roundtrip_witness :
    decode5 [250, 12, 129, 147, 231, 195] = (1000, 200, 100, 999) :=
  compact_header_roundtrip 195 1000 200 100 999 (by decide) (by decide)
    (by decide) (by decide) [250, 12, 129, 147, 231, 195] (by rfl)

/-! ### Color lemmas -/

set_option maxRecDepth 8000 in
theorem red_channel_mask : ∀ x : Fin 256,
    ((x.val <<< 8) &&& 63488) = ((x.val &&& 248) <<< 8) := by decide

set_option maxRecDepth 8000 in
theorem green_channel_mask : ∀ x : Fin 256,
    ((x.val <<< 3) &&& 2016) = ((x.val &&& 252) <<< 3) := by decide

theorem serial_spec_lt (r g b : Nat) (hb : b < 256) :
    serial_spec r g b < 65536 := by
  unfold serial_spec
  have h1 : (r &&& 248) <<< 8 < 65536 := by
    have : r &&& 248 ≤ 248 := Nat.and_le_right
    simp only [Nat.shiftLeft_eq]
    omega
  have h2 : (g &&& 252) <<< 3 < 65536 := by
    have : g &&& 252 ≤ 252 := Nat.and_le_right
    simp only [Nat.shiftLeft_eq]
    omega
  have h3 : b >>> 3 < 65536 := by
    rw [Nat.shiftRight_eq_div_pow]
    have := Nat.div_le_self b (2 ^ 3)
    omega
  have h65536 : (65536 : Nat) = 2 ^ 16 := by norm_num
  rw [h65536] at h1 h2 h3 ⊢
  exact Nat.or_lt_two_pow (Nat.or_lt_two_pow h1 h2) h3

/-- C9: for every color (r, g, b) with each channel in 0-255, `as_serial`
returns exactly `((r & 0xF8) << 8) | ((g & 0xFC) << 3) | (b >> 3)` as a
16-bit value, and the mapping is deterministic: the same input always
yields the same 16-bit value. -/
theorem as_serial_spec (c : Color) (hr : c.r < 256) (hg : c.g < 256)
    (hb : c.b < 256) :
    Color.as_serial c = serial_spec c.r c.g c.b ∧
      Color.as_serial c < 65536 ∧
      ∀ c2 : Color, c2 = c → Color.as_serial c2 = Color.as_serial c := by
  have hmain : Color.as_serial c = serial_spec c.r c.g c.b := by
    unfold Color.as_serial
    rw [red_channel_mask ⟨c.r, hr⟩, green_channel_mask ⟨c.g, hg⟩]
    exact Nat.mod_eq_of_lt (serial_spec_lt c.r c.g c.b hb)
  exact ⟨hmain, hmain ▸ serial_spec_lt c.r c.g c.b hb,
    fun c2 h => h ▸ rfl⟩

/-- Witness for C9 at the color (255, 0, 0). -/
theorem as_serial_spec_witness :
    Color.as_serial ⟨255, 0, 0⟩ = serial_spec 255 0 0 ∧
      Color.as_serial ⟨255, 0, 0⟩ = 63488 :=
  ⟨(as_serial_spec ⟨255, 0, 0⟩ (by decide) (by decide) (by decide)).1,
    by decide⟩


/-! ### Chunk-loop helper lemmas -/


theorem rustSlice_ok (v : List Nat) (s e : Nat) (h1 : s ≤ e) (h2 : e ≤ v.length) :
    rustSlice v s e = some ((v.drop s).take (e - s)) := by
  unfold rustSlice
  rw [if_pos ⟨h1, h2⟩]

theorem copyInto_ok (buf : List Nat) (off : Nat) (src : List Nat)
    (h : off + src.length ≤ buf.length) :
    copyInto buf off src = some (buf.take off ++ src ++ buf.drop (off + src.length)) := by
  unfold copyInto
  rw [if_pos h]

theorem draw_pixels_raw_loop_step (ox oy : Int) (coords : List Nat) (s right r1 : Nat)
    (buf : List Nat) (hlt : s < coords.length)
    (hr1 : (if coords.length < s + 56 then coords.length - s else right) = r1)
    (hpos : 0 < r1) (h56 : r1 ≤ 56) (hle : s + r1 ≤ coords.length)
    (hbuf : buf.length = 64) :
    draw_pixels_raw_loop ox oy coords s right buf =
      (⟨set_compact_header 195 ox oy (r1 : Int) 0
            (buf.take 8 ++ (coords.drop s).take r1 ++ buf.drop (8 + r1)),
          (coords.drop s).take r1⟩ ::
        (draw_pixels_raw_loop ox oy coords (s + r1) r1
          (set_compact_header 195 ox oy (r1 : Int) 0
            (buf.take 8 ++ (coords.drop s).take r1 ++ buf.drop (8 + r1)))).1,
       (draw_pixels_raw_loop ox oy coords (s + r1) r1
          (set_compact_header 195 ox oy (r1 : Int) 0
            (buf.take 8 ++ (coords.drop s).take r1 ++ buf.drop (8 + r1)))).2) := by
  conv_lhs => rw [draw_pixels_raw_loop]
  rw [dif_pos hlt]
  simp only [hr1]
  have hs1 : rustSlice coords s (s + r1) = some ((coords.drop s).take r1) := by
    rw [rustSlice_ok coords s (s + r1) (by omega) hle]
    have harg : s + r1 - s = r1 := by omega
    rw [harg]
  have hslen : ((coords.drop s).take r1).length = r1 := by
    simp [List.length_take, List.length_drop]
    omega
  have hc1 : copyInto buf 8 ((coords.drop s).take r1) =
      some (buf.take 8 ++ (coords.drop s).take r1 ++ buf.drop (8 + r1)) := by
    rw [copyInto_ok buf 8 _ (by rw [hslen]; omega)]
    rw [hslen]
  have hsend : send_command 195 ox oy (r1 : Int) 0
      (buf.take 8 ++ (coords.drop s).take r1 ++ buf.drop (8 + r1)) =
      .ok (set_compact_header 195 ox oy (r1 : Int) 0
        (buf.take 8 ++ (coords.drop s).take r1 ++ buf.drop (8 + r1))) := by
    unfold send_command
    apply send_command_delayed_ok
    simp [List.length_take, List.length_drop]
    omega
  rw [hs1]
  simp only []
  rw [hc1]
  simp only []
  rw [hsend]
  simp only []
  rw [dif_pos hpos]

theorem draw_pixels_raw_loop_done (ox oy : Int) (coords : List Nat) (s right : Nat)
    (buf : List Nat) (hge : coords.length ≤ s) :
    draw_pixels_raw_loop ox oy coords s right buf = ([], .done) := by
  rw [draw_pixels_raw_loop, dif_neg (by omega)]

theorem draw_pixels_raw_loop_spec (ox oy : Int) (coords : List Nat) :
    ∀ (n s right : Nat) (buf : List Nat),
      coords.length - s = n →
      s ≤ coords.length →
      buf.length = 64 →
      (s < coords.length → right = 56) →
      (draw_pixels_raw_loop ox oy coords s right buf).2 = .done ∧
      (draw_pixels_raw_loop ox oy coords s right buf).1.length =
        (coords.length - s + 55) / 56 ∧
      ((draw_pixels_raw_loop ox oy coords s right buf).1.map Chunk.slice).join =
        coords.drop s ∧
      ∀ ch ∈ (draw_pixels_raw_loop ox oy coords s right buf).1,
        0 < ch.slice.length ∧ ch.slice.length ≤ 56 ∧
        ∃ b1 : List Nat, b1.length = 64 ∧
          send_command 195 ox oy (ch.slice.length : Int) 0 b1 = .ok ch.frame := by
  intro n
  induction n using Nat.strong_induction_on with
  | _ n IH =>
    intro s right buf hn hs hbuf hr
    by_cases hlt : s < coords.length
    · have hright : right = 56 := hr hlt
      subst hright
      set r1 := if coords.length < s + 56 then coords.length - s else 56 with hr1
      have hfacts : 0 < r1 ∧ r1 ≤ 56 ∧ s + r1 ≤ coords.length := by
        rw [hr1]; split <;> omega
      obtain ⟨hpos, h56, hle⟩ := hfacts
      rw [draw_pixels_raw_loop_step ox oy coords s 56 r1 buf hlt hr1.symm hpos
        h56 hle hbuf]
      have hslen : ((coords.drop s).take r1).length = r1 := by
        rw [List.length_take, List.length_drop]
        omega
      have hbuf2 : (set_compact_header 195 ox oy (r1 : Int) 0
          (buf.take 8 ++ (coords.drop s).take r1 ++ buf.drop (8 + r1))).length = 64 := by
        rw [set_compact_header_length]
        simp only [List.length_append, List.length_take, List.length_drop, hslen]
        omega
      have hinv : s + r1 < coords.length → r1 = 56 := by
        rw [hr1]
        split
        · intro h2
          omega
        · intro h2
          rfl
      obtain ⟨ih1, ih2, ih3, ih4⟩ := IH (coords.length - (s + r1)) (by omega)
        (s + r1) r1 _ rfl (by omega) hbuf2 hinv
      refine ⟨ih1, ?_, ?_, ?_⟩
      · simp only [List.length_cons, ih2]
        rw [hr1]
        split <;> omega
      · simp only [List.map_cons, List.join_cons, ih3]
        have hdd : coords.drop (s + r1) = (coords.drop s).drop r1 := by
          rw [List.drop_drop]
        rw [hdd, List.take_append_drop]
      · intro ch hch
        rcases List.mem_cons.mp hch with hh | ht
        · subst hh
          simp only [hslen]
          refine ⟨hpos, h56, buf.take 8 ++ (coords.drop s).take r1 ++ buf.drop (8 + r1),
            ?_, ?_⟩
          · simp only [List.length_append, List.length_take, List.length_drop, hslen]
            omega
          · unfold send_command
            apply send_command_delayed_ok
            simp only [List.length_append, List.length_take, List.length_drop, hslen]
            omega
        · exact ih4 ch ht
    · rw [draw_pixels_raw_loop_done ox oy coords s right buf (by omega)]
      refine ⟨rfl, ?_, ?_, ?_⟩
      · simp only [List.length_nil]
        omega
      · simp only [List.map_nil, List.join_nil]
        rw [List.drop_eq_nil_of_le (by omega)]
      · intro ch hch
        simp at hch


theorem getD_append_right (l1 l2 : List Nat) (i : Nat) (h : l1.length ≤ i) :
    (l1 ++ l2).getD i 0 = l2.getD (i - l1.length) 0 := by
  simp [List.getD_eq_getElem?_getD, List.getElem?_append_right h]

theorem getD_replicate (k j : Nat) : (List.replicate k (0 : Nat)).getD j 0 = 0 := by
  simp [List.getD_eq_getElem?_getD, List.getElem?_replicate]
  split <;> rfl

theorem kd_frame_zero (command_code : Nat) (l t r b c : Int) (e : Nat)
    (slice : List Nat) (hlen : slice.length ≤ 52) :
    ∀ i, 12 + slice.length ≤ i →
      (kd_draw_buf command_code l t r b c e
        ((List.replicate 64 0).take 12 ++ slice ++
          (List.replicate 64 0).drop (12 + slice.length))).getD i 0 = 0 := by
  intro i hi
  unfold kd_draw_buf
  rw [getD_set_ne _ _ _ _ (by omega), getD_set_ne _ _ _ _ (by omega),
    getD_set_ne _ _ _ _ (by omega), getD_set_ne _ _ _ _ (by omega),
    getD_set_ne _ _ _ _ (by omega), getD_set_ne _ _ _ _ (by omega),
    getD_set_ne _ _ _ _ (by omega), getD_set_ne _ _ _ _ (by omega),
    getD_set_ne _ _ _ _ (by omega), getD_set_ne _ _ _ _ (by omega),
    getD_set_ne _ _ _ _ (by omega), getD_set_ne _ _ _ _ (by omega)]
  rw [List.take_replicate, List.drop_replicate,
    show ((12 : Nat) ⊓ 64) = 12 from rfl]
  rw [getD_append_right _ _ _
    (by simp [List.length_append, List.length_replicate]; omega)]
  exact getD_replicate _ _

theorem draw_bar_graph_loop_done (x y : Int) (count : Nat) (bg fg ecc : Nat)
    (data : List Nat) (s : Nat) (hge : count ≤ s) :
    draw_bar_graph_loop x y count bg fg ecc data s = ([], .done) := by
  rw [draw_bar_graph_loop, dif_neg (by omega)]

theorem draw_bar_graph_loop_step (x y : Int) (count : Nat) (bg fg ecc : Nat)
    (data : List Nat) (s r1 : Nat) (hlt : s < count)
    (hr1 : (if count < s + 52 then count - s else 52) = r1)
    (h52 : r1 ≤ 52) (hle : s + r1 ≤ data.length) :
    draw_bar_graph_loop x y count bg fg ecc data s =
      (⟨kd_draw_buf 137 (x + (s : Int)) y (r1 : Int) (bg : Int) (fg : Int) ecc
          ((List.replicate 64 0).take 12 ++ (data.drop s).take r1 ++
            (List.replicate 64 0).drop (12 + r1)),
        (data.drop s).take r1⟩ ::
        (draw_bar_graph_loop x y count bg fg ecc data (s + r1)).1,
       (draw_bar_graph_loop x y count bg fg ecc data (s + r1)).2) := by
  conv_lhs => rw [draw_bar_graph_loop]
  rw [dif_pos hlt]
  simp only [hr1]
  have hslen : ((data.drop s).take r1).length = r1 := by
    rw [List.length_take, List.length_drop]
    omega
  have hs1 : rustSlice data s (s + r1) = some ((data.drop s).take r1) := by
    rw [rustSlice_ok data s (s + r1) (by omega) hle]
    have harg : s + r1 - s = r1 := by omega
    rw [harg]
  have hc1 : copyInto (List.replicate 64 0) 12 ((data.drop s).take r1) =
      some ((List.replicate 64 0).take 12 ++ (data.drop s).take r1 ++
        (List.replicate 64 0).drop (12 + r1)) := by
    rw [copyInto_ok _ 12 _ (by rw [hslen]; simp [List.length_replicate]; omega)]
    rw [hslen]
  rw [hs1]
  simp only []
  rw [hc1]

theorem draw_bar_graph_loop_spec (x y : Int) (count : Nat) (bg fg ecc : Nat)
    (data : List Nat) (hdata : count ≤ data.length) :
    ∀ (n s : Nat),
      count - s = n →
      s ≤ count →
      (draw_bar_graph_loop x y count bg fg ecc data s).2 = .done ∧
      (draw_bar_graph_loop x y count bg fg ecc data s).1.length =
        (count - s + 51) / 52 ∧
      ((draw_bar_graph_loop x y count bg fg ecc data s).1.map Chunk.slice).join =
        (data.drop s).take (count - s) ∧
      ∀ ch ∈ (draw_bar_graph_loop x y count bg fg ecc data s).1,
        0 < ch.slice.length ∧ ch.slice.length ≤ 52 ∧
        ∀ i, 12 + ch.slice.length ≤ i → ch.frame.getD i 0 = 0 := by
  intro n
  induction n using Nat.strong_induction_on with
  | _ n IH =>
    intro s hn hs
    by_cases hlt : s < count
    · set r1 := if count < s + 52 then count - s else 52 with hr1
      have hfacts : 0 < r1 ∧ r1 ≤ 52 ∧ s + r1 ≤ count := by
        rw [hr1]; split <;> omega
      obtain ⟨hpos, h52, hle⟩ := hfacts
      rw [draw_bar_graph_loop_step x y count bg fg ecc data s r1 hlt hr1.symm h52
        (by omega)]
      have hslen : ((data.drop s).take r1).length = r1 := by
        rw [List.length_take, List.length_drop]
        omega
      obtain ⟨ih1, ih2, ih3, ih4⟩ := IH (count - (s + r1)) (by omega) (s + r1) rfl
        (by omega)
      refine ⟨ih1, ?_, ?_, ?_⟩
      · simp only [List.length_cons, ih2]
        rw [hr1]
        split <;> omega
      · simp only [List.map_cons, List.join_cons, ih3]
        have hdd : data.drop (s + r1) = (data.drop s).drop r1 := by
          rw [List.drop_drop]
        rw [hdd, show count - (s + r1) = count - s - r1 from by omega,
          ← List.take_add]
        congr 1
        omega
      · intro ch hch
        rcases List.mem_cons.mp hch with hh | ht
        · subst hh
          simp only [hslen]
          have hz := kd_frame_zero 137 (x + (s : Int)) y (r1 : Int) (bg : Int)
            (fg : Int) ecc ((data.drop s).take r1) (by rw [hslen]; omega)
          rw [hslen] at hz
          exact ⟨hpos, h52, hz⟩
        · exact ih4 ch ht
    · rw [draw_bar_graph_loop_done x y count bg fg ecc data s (by omega)]
      refine ⟨rfl, ?_, ?_, ?_⟩
      · simp only [List.length_nil]
        omega
      · simp only [List.map_nil, List.join_nil]
        rw [show count - s = 0 from by omega]
        simp
      · intro ch hch
        simp at hch


theorem take_succ_dropLast (L : List Nat) (r : Nat) (h : r + 1 ≤ L.length) :
    (L.take (r + 1)).dropLast = L.take r := by
  rw [List.dropLast_eq_take, List.length_take, List.take_take]
  congr 1
  omega

theorem draw_line_graph_loop_done (x y : Int) (count : Nat) (bg fg ecc : Nat)
    (data : List Nat) (s : Nat) (hge : count ≤ s) :
    draw_line_graph_loop x y count bg fg ecc data s = ([], .done) := by
  rw [draw_line_graph_loop, dif_neg (by omega)]

theorem draw_line_graph_loop_step (x y : Int) (count : Nat) (bg fg ecc : Nat)
    (data : List Nat) (s r1 : Nat) (hlt : s < count)
    (hr1 : (if count < s + 51 then count - s else 51) = r1)
    (h51 : r1 ≤ 51) (hle : s + (r1 + 1) ≤ data.length) :
    draw_line_graph_loop x y count bg fg ecc data s =
      (⟨(if s = 0 then
            kd_draw_buf 144 (Int.lor (x + (s : Int) + 1) 32768) y (r1 : Int)
              (bg : Int) (fg : Int) ecc
              ((List.replicate 64 0).take 12 ++ (data.drop s).take (r1 + 1) ++
                (List.replicate 64 0).drop (12 + (r1 + 1)))
          else
            kd_draw_buf 144 (x + (s : Int) + 1) y (r1 : Int)
              (bg : Int) (fg : Int) ecc
              ((List.replicate 64 0).take 12 ++ (data.drop s).take (r1 + 1) ++
                (List.replicate 64 0).drop (12 + (r1 + 1)))),
        (data.drop s).take (r1 + 1)⟩ ::
        (draw_line_graph_loop x y count bg fg ecc data (s + r1)).1,
       (draw_line_graph_loop x y count bg fg ecc data (s + r1)).2) := by
  conv_lhs => rw [draw_line_graph_loop]
  rw [dif_pos hlt]
  simp only [hr1]
  have hslen : ((data.drop s).take (r1 + 1)).length = r1 + 1 := by
    rw [List.length_take, List.length_drop]
    omega
  have hs1 : rustSlice data s (s + (r1 + 1)) = some ((data.drop s).take (r1 + 1)) := by
    rw [rustSlice_ok data s (s + (r1 + 1)) (by omega) hle]
    have harg : s + (r1 + 1) - s = r1 + 1 := by omega
    rw [harg]
  have hc1 : copyInto (List.replicate 64 0) 12 ((data.drop s).take (r1 + 1)) =
      some ((List.replicate 64 0).take 12 ++ (data.drop s).take (r1 + 1) ++
        (List.replicate 64 0).drop (12 + (r1 + 1))) := by
    rw [copyInto_ok _ 12 _ (by rw [hslen]; simp [List.length_replicate]; omega)]
    rw [hslen]
  rw [hs1]
  simp only []
  rw [hc1]

theorem draw_line_graph_loop_spec (x y : Int) (count : Nat) (bg fg ecc : Nat)
    (data : List Nat) (hdata : count + 1 ≤ data.length) :
    ∀ (n s : Nat),
      count - s = n →
      s ≤ count →
      (draw_line_graph_loop x y count bg fg ecc data s).2 = .done ∧
      (draw_line_graph_loop x y count bg fg ecc data s).1.length =
        (count - s + 50) / 51 ∧
      ((draw_line_graph_loop x y count bg fg ecc data s).1.map
        (fun ch => ch.slice.dropLast)).join = (data.drop s).take (count - s) ∧
      ∀ ch ∈ (draw_line_graph_loop x y count bg fg ecc data s).1,
        1 < ch.slice.length ∧ ch.slice.length ≤ 52 ∧
        ∀ i, 12 + ch.slice.length ≤ i → ch.frame.getD i 0 = 0 := by
  intro n
  induction n using Nat.strong_induction_on with
  | _ n IH =>
    intro s hn hs
    by_cases hlt : s < count
    · set r1 := if count < s + 51 then count - s else 51 with hr1
      have hfacts : 0 < r1 ∧ r1 ≤ 51 ∧ s + r1 ≤ count := by
        rw [hr1]; split <;> omega
      obtain ⟨hpos, h51, hle⟩ := hfacts
      rw [draw_line_graph_loop_step x y count bg fg ecc data s r1 hlt hr1.symm h51
        (by omega)]
      have hslen : ((data.drop s).take (r1 + 1)).length = r1 + 1 := by
        rw [List.length_take, List.length_drop]
        omega
      obtain ⟨ih1, ih2, ih3, ih4⟩ := IH (count - (s + r1)) (by omega) (s + r1) rfl
        (by omega)
      refine ⟨ih1, ?_, ?_, ?_⟩
      · simp only [List.length_cons, ih2]
        rw [hr1]
        split <;> omega
      · simp only [List.map_cons, List.join_cons, ih3]
        have hdl : ((data.drop s).take (r1 + 1)).dropLast = (data.drop s).take r1 := by
          apply take_succ_dropLast
          rw [List.length_drop]
          omega
        rw [hdl]
        have hdd : data.drop (s + r1) = (data.drop s).drop r1 := by
          rw [List.drop_drop]
        rw [hdd, show count - (s + r1) = count - s - r1 from by omega,
          ← List.take_add]
        congr 1
        omega
      · intro ch hch
        rcases List.mem_cons.mp hch with hh | ht
        · subst hh
          simp only [hslen]
          refine ⟨by omega, by omega, ?_⟩
          split
          · have hz := kd_frame_zero 144 (Int.lor (x + (s : Int) + 1) 32768) y
              (r1 : Int) (bg : Int) (fg : Int) ecc
              ((data.drop s).take (r1 + 1)) (by rw [hslen]; omega)
            rw [hslen] at hz
            exact hz
          · have hz := kd_frame_zero 144 (x + (s : Int) + 1) y
              (r1 : Int) (bg : Int) (fg : Int) ecc
              ((data.drop s).take (r1 + 1)) (by rw [hslen]; omega)
            rw [hslen] at hz
            exact hz
        · exact ih4 ch ht
    · rw [draw_line_graph_loop_done x y count bg fg ecc data s (by omega)]
      refine ⟨rfl, ?_, ?_, ?_⟩
      · simp only [List.length_nil]
        omega
      · simp only [List.map_nil, List.join_nil]
        rw [show count - s = 0 from by omega]
        simp
      · intro ch hch
        simp at hch


/-- C5 (counterexample): a line-graph transfer whose payload has exactly
N = count = 2 elements emits 0 frames (the first chunk's slice
`data[0..3]` is out of bounds and the call panics), not ceil(2/51) = 1. -/
theorem chunked_transfer_counts_cex :
    (draw_line_graph 0 0 2 ⟨0, 0, 0⟩ ⟨255, 0, 0⟩ [1, 2]).1.length = 0 ∧
    (draw_line_graph 0 0 2 ⟨0, 0, 0⟩ ⟨255, 0, 0⟩ [1, 2]).2 = .crashed ∧
    (2 + 50) / 51 = 1 := by
  refine ⟨?_, ?_, by norm_num⟩ <;>
    (unfold draw_line_graph; rw [draw_line_graph_loop]; decide)

/-- C5 (amended): pixel-list and bar-graph transfers of a payload of N
elements emit exactly ceil(N / 56) resp. ceil(N / 52) frames whose data
slices concatenate to the payload; a line-graph transfer requires
`data.length ≥ count + 1` (each chunk copies one trailing overlap sample),
and then emits exactly ceil(count / 51) frames whose non-overlapping data
slices concatenate to the first count payload bytes. -/
theorem chunked_transfer_counts (ox oy x y x2 y2 : Int)
    (c1 c2 c3 c4 c5 : Color) (coords data data2 : List Nat)
    (count count2 : Nat) (hbar : data.length = count)
    (hline : count2 + 1 ≤ data2.length) :
    ((draw_pixels_raw ox oy c1 coords).2 = .done ∧
     (draw_pixels_raw ox oy c1 coords).1.length = (coords.length + 55) / 56 ∧
     ((draw_pixels_raw ox oy c1 coords).1.map Chunk.slice).join = coords) ∧
    ((draw_bar_graph x y count c2 c3 data).2 = .done ∧
     (draw_bar_graph x y count c2 c3 data).1.length = (count + 51) / 52 ∧
     ((draw_bar_graph x y count c2 c3 data).1.map Chunk.slice).join = data) ∧
    ((draw_line_graph x2 y2 count2 c4 c5 data2).2 = .done ∧
     (draw_line_graph x2 y2 count2 c4 c5 data2).1.length = (count2 + 50) / 51 ∧
     ((draw_line_graph x2 y2 count2 c4 c5 data2).1.map
       (fun ch => ch.slice.dropLast)).join = data2.take count2) := by
  refine ⟨?_, ?_, ?_⟩
  · unfold draw_pixels_raw
    obtain ⟨h1, h2, h3, _⟩ := draw_pixels_raw_loop_spec ox oy coords
      coords.length 0 56
      (((List.replicate 64 0).set 6 ((c1.as_serial >>> 8) % 256)).set
        7 (c1.as_serial &&& 255))
      (by omega) (by omega) (by simp [List.length_set, List.length_replicate])
      (fun _ => rfl)
    refine ⟨h1, ?_, ?_⟩
    · rw [h2]
      norm_num
    · rw [h3, List.drop_zero]
  · unfold draw_bar_graph
    obtain ⟨h1, h2, h3, _⟩ := draw_bar_graph_loop_spec x y count c2.as_serial
      c3.as_serial (ecc_of c3.as_serial c2.as_serial) data (by omega)
      count 0 (by omega) (by omega)
    refine ⟨h1, ?_, ?_⟩
    · rw [h2]
      norm_num
    · rw [h3, List.drop_zero, Nat.sub_zero, ← hbar, List.take_length]
  · unfold draw_line_graph
    obtain ⟨h1, h2, h3, _⟩ := draw_line_graph_loop_spec x2 y2 count2
      c4.as_serial c5.as_serial (ecc_of c5.as_serial c4.as_serial) data2
      (by omega) count2 0 (by omega) (by omega)
    refine ⟨h1, ?_, ?_⟩
    · rw [h2]
      norm_num
    · rw [h3, List.drop_zero, Nat.sub_zero]

/-- Witness for C5 (amended): 30 near points = 60 coordinate bytes produce
exactly 2 pixel-chunk frames; bar payload [1,2,3] and line payload [5,6]
with count 1 satisfy the hypotheses. -/
theorem chunked_transfer_counts_witness :
    (([1, 2, 3] : List Nat).length = 3 ∧ 1 + 1 ≤ ([5, 6] : List Nat).length) ∧
    (draw_pixels_raw 0 0 ⟨255, 0, 0⟩ (List.replicate 60 7)).1.length = 2 := by
  have h := chunked_transfer_counts 0 0 0 0 0 0 ⟨255, 0, 0⟩ ⟨0, 0, 0⟩
    ⟨255, 0, 0⟩ ⟨0, 0, 0⟩ ⟨255, 0, 0⟩ (List.replicate 60 7) [1, 2, 3] [5, 6]
    3 1 (by simp) (by simp)
  refine ⟨⟨by simp, by simp⟩, ?_⟩
  have h2 := h.1.2.1
  simpa using h2

/-- C1 (counterexample): `draw_line_graph(0, 0, 1, bg, fg, [7])` with data
of length exactly count = 1 reads past the end of data: the single chunk
attempts to copy `data[0..2]` from the 1-byte payload and the call panics,
emitting nothing. -/
theorem line_graph_overread_cex :
    (draw_line_graph 0 0 1 ⟨0, 0, 0⟩ ⟨255, 0, 0⟩ [7]).2 = .crashed ∧
    (draw_line_graph 0 0 1 ⟨0, 0, 0⟩ ⟨255, 0, 0⟩ [7]).1 = [] := by
  refine ⟨?_, ?_⟩ <;>
    (unfold draw_line_graph; rw [draw_line_graph_loop]; decide)

/-- C1 (amended): every chunk of `draw_line_graph` copies `right + 1` bytes
(one trailing overlap sample); when the payload carries at least count + 1
bytes, every slice taken from data lies within bounds and the call completes
without a panic, every chunk's slice holding at most 52 bytes. -/
theorem line_graph_slices_in_bounds (x y : Int) (c1 c2 : Color)
    (count : Nat) (data : List Nat) (h : count + 1 ≤ data.length) :
    (draw_line_graph x y count c1 c2 data).2 = .done ∧
    ∀ ch ∈ (draw_line_graph x y count c1 c2 data).1,
      1 < ch.slice.length ∧ ch.slice.length ≤ 52 := by
  unfold draw_line_graph
  obtain ⟨h1, _, _, h4⟩ := draw_line_graph_loop_spec x y count c1.as_serial
    c2.as_serial (ecc_of c2.as_serial c1.as_serial) data (by omega)
    count 0 (by omega) (by omega)
  exact ⟨h1, fun ch hch => ⟨(h4 ch hch).1, (h4 ch hch).2.1⟩⟩

/-- Witness for C1 (amended) at count = 1, data = [7, 8]. -/
theorem line_graph_slices_in_bounds_witness :
    1 + 1 ≤ ([7, 8] : List Nat).length ∧
    (draw_line_graph 0 0 1 ⟨0, 0, 0⟩ ⟨255, 0, 0⟩ [7, 8]).2 = .done :=
  ⟨by simp,
    (line_graph_slices_in_bounds 0 0 ⟨0, 0, 0⟩ ⟨255, 0, 0⟩ 1 [7, 8]
      (by simp)).1⟩


/-- C3 (counterexample): drawing the single pixel (5, 7) emits one chunk
whose compact header decodes to (0, 0, 2, 0): the third header field is the
chunk's coordinate byte count 2, not its point count 1. -/
theorem pixel_chunk_header_cex :
    ((draw_pixels ⟨255, 0, 0⟩ [(5, 7)]).1.map fun ch => decode5 ch.frame) =
      [(0, 0, 2, 0)] ∧
    ((draw_pixels ⟨255, 0, 0⟩ [(5, 7)]).1.map fun ch => ch.slice.length) =
      [2] ∧ (2 : Nat) ≠ 1 := by
  have heval := draw_pixels_raw_loop_step 0 0 [5, 7] 0 56 2
    (((List.replicate 64 0).set 6 ((Color.as_serial ⟨255, 0, 0⟩ >>> 8) % 256)).set
      7 (Color.as_serial ⟨255, 0, 0⟩ &&& 255))
    (by decide) (by decide) (by decide) (by decide) (by decide) (by decide)
  rw [draw_pixels_raw_loop_done 0 0 [5, 7] (0 + 2) 2 _ (by decide)] at heval
  refine ⟨?_, ?_, by decide⟩ <;>
    (unfold draw_pixels
     rw [if_neg (by decide)]
     simp only [show near_list [((5 : Int), (7 : Int))] = [5, 7] from by decide,
       show far_source [((5 : Int), (7 : Int))] = [] from by decide]
     unfold draw_pixels_raw
     rw [heval]
     decide)

/-- C3 (amended): every chunk emitted by the pixel-chunk dispatch path
carries a compact header decoding to (offset_x, offset_y, byte_count, 0):
the third header field is the chunk's coordinate byte count, i.e. twice the
number of points in the chunk, not the point count itself. -/
theorem pixel_chunk_header_fields (ox oy : Int) (c : Color)
    (coords : List Nat) (hox0 : 0 ≤ ox) (hox : ox ≤ 1023) (hoy0 : 0 ≤ oy)
    (hoy : oy ≤ 255) :
    ∀ ch ∈ (draw_pixels_raw ox oy c coords).1,
      decode5 ch.frame = (ox.toNat, oy.toNat, ch.slice.length, 0) := by
  intro ch hch
  have hspec := draw_pixels_raw_loop_spec ox oy coords coords.length 0 56
    (((List.replicate 64 0).set 6 ((c.as_serial >>> 8) % 256)).set
      7 (c.as_serial &&& 255))
    (by omega) (by omega) (by simp [List.length_set, List.length_replicate])
    (fun _ => rfl)
  obtain ⟨-, h56, b1, hb1, hsend⟩ := hspec.2.2.2 ch hch
  have hox' : ((ox.toNat : Nat) : Int) = ox := Int.toNat_of_nonneg hox0
  have hoy' : ((oy.toNat : Nat) : Int) = oy := Int.toNat_of_nonneg hoy0
  apply decode5_send_command 195 ox.toNat oy.toNat ch.slice.length 0 b1
    ch.frame (by omega) (by omega) (by omega) (by omega) (by omega)
  rw [hox', hoy', Nat.cast_zero]
  exact hsend

/-- Witness for C3 (amended): the single point (9, 9) drawn at offset
(3, 4) produces one chunk whose header decodes to (3, 4, 2, 0). -/
theorem pixel_chunk_header_fields_witness :
    ((draw_pixels_raw 3 4 ⟨255, 0, 0⟩ [9, 9]).1.map fun ch =>
      decode5 ch.frame) = [(3, 4, 2, 0)] := by
  have h := pixel_chunk_header_fields 3 4 ⟨255, 0, 0⟩ [9, 9] (by decide)
    (by decide) (by decide) (by decide)
  have heval := draw_pixels_raw_loop_step 3 4 [9, 9] 0 56 2
    (((List.replicate 64 0).set 6 ((Color.as_serial ⟨255, 0, 0⟩ >>> 8) % 256)).set
      7 (Color.as_serial ⟨255, 0, 0⟩ &&& 255))
    (by decide) (by decide) (by decide) (by decide) (by decide) (by decide)
  rw [draw_pixels_raw_loop_done 3 4 [9, 9] (0 + 2) 2 _ (by decide)] at heval
  unfold draw_pixels_raw at h ⊢
  rw [heval] at h ⊢
  simp only [List.map_cons, List.map_nil]
  rw [h _ (List.mem_singleton.mpr rfl)]
  decide

/-- C4 (counterexample): a 30-point (60-byte) pixel transfer reuses one
64-byte buffer for both chunks; the final 4-byte chunk's frame still holds
the previous chunk's coordinate bytes beyond offset 8 + 4: byte 20 of the
second frame is 1, not 0. -/
theorem chunk_zero_fill_cex :
    ((draw_pixels_raw 0 0 ⟨255, 0, 0⟩ (List.replicate 60 1)).1.map fun ch =>
      (ch.slice.length, ch.frame.getD 20 0)) = [(56, 1), (4, 1)] ∧
    8 + 4 ≤ 20 ∧ (1 : Nat) ≠ 0 := by
  have heval := draw_pixels_raw_loop_step 0 0 (List.replicate 60 1) 0 56 56
    (((List.replicate 64 0).set 6 ((Color.as_serial ⟨255, 0, 0⟩ >>> 8) % 256)).set
      7 (Color.as_serial ⟨255, 0, 0⟩ &&& 255))
    (by decide) (by decide) (by decide) (by decide) (by decide) (by decide)
  rw [draw_pixels_raw_loop_step 0 0 (List.replicate 60 1) (0 + 56) 56 4 _
    (by decide) (by decide) (by decide) (by decide) (by decide) (by decide)] at heval
  rw [draw_pixels_raw_loop_done 0 0 (List.replicate 60 1) (0 + 56 + 4) 4 _
    (by decide)] at heval
  refine ⟨?_, by decide, by decide⟩
  unfold draw_pixels_raw
  rw [heval]
  decide

/-- C4 (amended): every chunk of a bar-graph or line-graph transfer copies
its data slice into a freshly zeroed frame buffer at the reserved offset 12,
so every byte of the emitted frame beyond 12 + (copied slice length) is
zero; the pixel-list path reuses a single buffer across chunks, so this
fails there for later short chunks. -/
theorem graph_chunk_zero_fill (x y x2 y2 : Int) (cbg cfg cbg2 cfg2 : Color)
    (count count2 : Nat) (data data2 : List Nat)
    (hbar : count ≤ data.length) (hline : count2 + 1 ≤ data2.length) :
    (∀ ch ∈ (draw_bar_graph x y count cbg cfg data).1, ∀ i,
      12 + ch.slice.length ≤ i → ch.frame.getD i 0 = 0) ∧
    (∀ ch ∈ (draw_line_graph x2 y2 count2 cbg2 cfg2 data2).1, ∀ i,
      12 + ch.slice.length ≤ i → ch.frame.getD i 0 = 0) := by
  constructor
  · intro ch hch
    unfold draw_bar_graph at hch
    have hspec := draw_bar_graph_loop_spec x y count cbg.as_serial
      cfg.as_serial (ecc_of cfg.as_serial cbg.as_serial) data hbar count 0
      (by omega) (by omega)
    exact (hspec.2.2.2 ch hch).2.2
  · intro ch hch
    unfold draw_line_graph at hch
    have hspec := draw_line_graph_loop_spec x2 y2 count2 cbg2.as_serial
      cfg2.as_serial (ecc_of cfg2.as_serial cbg2.as_serial) data2 hline
      count2 0 (by omega) (by omega)
    exact (hspec.2.2.2 ch hch).2.2

/-- Witness for C4 (amended): a 2-sample bar graph emits one frame whose
byte 20 (beyond 12 + 2) is zero. -/
theorem graph_chunk_zero_fill_witness :
    (2 ≤ ([9, 9] : List Nat).length ∧ 0 + 1 ≤ ([7] : List Nat).length) ∧
    ((draw_bar_graph 0 0 2 ⟨0, 0, 0⟩ ⟨255, 0, 0⟩ [9, 9]).1.map fun ch =>
      ch.frame.getD 20 0) = [0] := by
  have h := (graph_chunk_zero_fill 0 0 0 0 ⟨0, 0, 0⟩ ⟨255, 0, 0⟩ ⟨0, 0, 0⟩
    ⟨255, 0, 0⟩ 2 0 [9, 9] [7] (by simp) (by simp)).1
  have heval := draw_bar_graph_loop_step 0 0 2 (Color.as_serial ⟨0, 0, 0⟩)
    (Color.as_serial ⟨255, 0, 0⟩)
    (ecc_of (Color.as_serial ⟨255, 0, 0⟩) (Color.as_serial ⟨0, 0, 0⟩)) [9, 9]
    0 2 (by decide) (by decide) (by decide) (by decide)
  rw [draw_bar_graph_loop_done 0 0 2 (Color.as_serial ⟨0, 0, 0⟩)
    (Color.as_serial ⟨255, 0, 0⟩)
    (ecc_of (Color.as_serial ⟨255, 0, 0⟩) (Color.as_serial ⟨0, 0, 0⟩)) [9, 9]
    (0 + 2) (by decide)] at heval
  refine ⟨⟨by simp, by simp⟩, ?_⟩
  unfold draw_bar_graph at h ⊢
  rw [heval] at h ⊢
  simp only [List.map_cons, List.map_nil]
  rw [h _ (List.mem_singleton.mpr rfl) 20 (by decide)]


/-- C6: `draw_pixels` fails with BoundsTooLarge if and only if the far
subset (points with x ≥ 256 or y ≥ 256) is non-empty and, after subtracting
the far subset's minimum x and minimum y, some far point still exceeds 255
in that axis; otherwise the call completes; and on failure only the
near-subset transfer has been written. -/
theorem draw_pixels_bounds (c : Color) (points : List (Int × Int)) :
    ((draw_pixels c points).2 = .failed .BoundsTooLarge ↔
      far_source points ≠ [] ∧
      ∃ p ∈ far_source points,
        255 < p.1 - (((far_source points).map Prod.fst).min?).getD 0 ∨
        255 < p.2 - (((far_source points).map Prod.snd).min?).getD 0) ∧
    ((draw_pixels c points).2 = .failed .BoundsTooLarge →
      (draw_pixels c points).1 = (draw_pixels_raw 0 0 c (near_list points)).1) ∧
    ((draw_pixels c points).2 = .done ∨
      (draw_pixels c points).2 = .failed .BoundsTooLarge) := by
  have hnear : (draw_pixels_raw 0 0 c (near_list points)).2 = .done := by
    unfold draw_pixels_raw
    exact (draw_pixels_raw_loop_spec 0 0 (near_list points)
      (near_list points).length 0 56 _ (by omega) (by omega)
      (by simp [List.length_set, List.length_replicate]) (fun _ => rfl)).1
  have hfar : ∀ ox oy : Int, ∀ l : List Nat,
      (draw_pixels_raw ox oy c l).2 = .done := by
    intro ox oy l
    unfold draw_pixels_raw
    exact (draw_pixels_raw_loop_spec ox oy l l.length 0 56 _ (by omega)
      (by omega) (by simp [List.length_set, List.length_replicate])
      (fun _ => rfl)).1
  unfold draw_pixels
  by_cases hempty : points.length = 0
  · rw [if_pos hempty]
    have : points = [] := List.length_eq_zero.mp hempty
    subst this
    refine ⟨?_, ?_, ?_⟩
    · simp [far_source]
    · intro h
      simp at h
    · left
      rfl
  · rw [if_neg hempty]
    simp only [hnear]
    by_cases hfe : (far_source points).length = 0
    · rw [if_pos hfe]
      have hfnil : far_source points = [] := List.length_eq_zero.mp hfe
      refine ⟨?_, ?_, ?_⟩
      · simp [hfnil]
      · intro h
        simp at h
      · left
        rfl
    · rw [if_neg hfe]
      by_cases hax : (far_source points).any fun p =>
          255 < p.1 - (((far_source points).map Prod.fst).min?).getD 0
      · rw [if_pos hax]
        refine ⟨?_, fun _ => rfl, Or.inr rfl⟩
        constructor
        · intro _
          refine ⟨fun hng => hfe (by rw [hng]; rfl), ?_⟩
          obtain ⟨p, hp, hvx⟩ := List.any_eq_true.mp hax
          exact ⟨p, hp, Or.inl (by simpa using hvx)⟩
        · intro _
          rfl
      · rw [if_neg hax]
        by_cases hay : (far_source points).any fun p =>
            255 < p.2 - (((far_source points).map Prod.snd).min?).getD 0
        · rw [if_pos hay]
          refine ⟨?_, fun _ => rfl, Or.inr rfl⟩
          constructor
          · intro _
            refine ⟨fun hng => hfe (by rw [hng]; rfl), ?_⟩
            obtain ⟨p, hp, hvy⟩ := List.any_eq_true.mp hay
            exact ⟨p, hp, Or.inr (by simpa using hvy)⟩
          · intro _
            rfl
        · rw [if_neg hay]
          rw [hfar _ _ _]
          refine ⟨?_, ?_, Or.inl rfl⟩
          · constructor
            · intro h
              simp at h
            · intro ⟨hne, p, hp, hv⟩
              rcases hv with hv | hv
              · exact absurd (List.any_eq_true.mpr ⟨p, hp, by simpa using hv⟩) hax
              · exact absurd (List.any_eq_true.mpr ⟨p, hp, by simpa using hv⟩) hay
          · intro h
            simp at h

/-- Witness for C6: the far points (300, 10), (700, 10) span 400 > 255 in x,
so the call fails with BoundsTooLarge. -/
theorem draw_pixels_bounds_witness :
    (draw_pixels ⟨255, 0, 0⟩ [(300, 10), (700, 10)]).2 =
      .failed .BoundsTooLarge :=
  (draw_pixels_bounds ⟨255, 0, 0⟩ [(300, 10), (700, 10)]).1.mpr (by decide)

/-- C7: `draw_image` fails with ImageTooLarge if and only if
width + x > SCREEN_WIDTH or height + y > SCREEN_HEIGHT, the check happens
before any conversion or transport write (nothing is written on failure),
and placement exactly at the boundary succeeds. -/
theorem draw_image_bounds (image : RgbImage) (x y : Int) :
    ((draw_image image x y).2 = .failed .ImageTooLarge ↔
      SCREEN_WIDTH < (image.width : Int) + x ∨
      SCREEN_HEIGHT < (image.height : Int) + y) ∧
    ((draw_image image x y).2 = .failed .ImageTooLarge →
      (draw_image image x y).1 = []) ∧
    (¬(SCREEN_WIDTH < (image.width : Int) + x ∨
        SCREEN_HEIGHT < (image.height : Int) + y) →
      (draw_image image x y).2 = .done) := by
  unfold draw_image
  by_cases h : SCREEN_WIDTH < (image.width : Int) + x ∨
      SCREEN_HEIGHT < (image.height : Int) + y
  · rw [if_pos h]
    exact ⟨⟨fun _ => h, fun _ => rfl⟩, fun _ => rfl, fun hn => absurd h hn⟩
  · rw [if_neg h]
    unfold send_command_simple
    rw [send_command_delayed_ok _ _ _ _ _ _ (by decide)]
    exact ⟨⟨fun hc => by simp at hc, fun hc => absurd hc h⟩,
      fun hc => by simp at hc, fun _ => rfl⟩

/-- Witness for C7: a 2-by-1 image placed at (798, 479) touches the screen
boundary exactly (798 + 2 = 800, 479 + 1 = 480) and succeeds. -/
theorem draw_image_bounds_witness :
    (draw_image ⟨2, 1, fun _ _ => (255, 0, 0)⟩ 798 479).2 = .done :=
  (draw_image_bounds ⟨2, 1, fun _ _ => (255, 0, 0)⟩ 798 479).2.2 (by decide)


/-! ### Image-lowering fill lemmas -/

theorem fold_row_length (w : Nat) (f g : Nat → Nat) (off : Nat)
    (buf : List Nat) :
    ((List.range w).foldl (fun b x =>
      (b.set (x * 2 + off) (f x)).set (x * 2 + off + 1) (g x)) buf).length =
      buf.length := by
  induction w with
  | zero => rfl
  | succ w ih =>
    rw [List.range_succ, List.foldl_append]
    simp [List.length_set, ih]

theorem fold_row_untouched (w : Nat) (f g : Nat → Nat) (off : Nat)
    (buf : List Nat) (j : Nat) (hj : j < off ∨ off + 2 * w ≤ j) :
    ((List.range w).foldl (fun b x =>
      (b.set (x * 2 + off) (f x)).set (x * 2 + off + 1) (g x)) buf).getD j 0 =
      buf.getD j 0 := by
  induction w with
  | zero => rfl
  | succ w ih =>
    rw [List.range_succ, List.foldl_append]
    simp only [List.foldl_cons, List.foldl_nil]
    rw [getD_set_ne _ _ _ _ (by omega), getD_set_ne _ _ _ _ (by omega)]
    exact ih (by omega)

theorem fold_row_write (w : Nat) (f g : Nat → Nat) (off : Nat)
    (buf : List Nat) (x0 : Nat) (hx : x0 < w)
    (hlen : x0 * 2 + off + 1 < buf.length) :
    ((List.range w).foldl (fun b x =>
      (b.set (x * 2 + off) (f x)).set (x * 2 + off + 1) (g x)) buf).getD
        (x0 * 2 + off) 0 = f x0 ∧
    ((List.range w).foldl (fun b x =>
      (b.set (x * 2 + off) (f x)).set (x * 2 + off + 1) (g x)) buf).getD
        (x0 * 2 + off + 1) 0 = g x0 := by
  induction w with
  | zero => omega
  | succ w ih =>
    rw [List.range_succ, List.foldl_append]
    simp only [List.foldl_cons, List.foldl_nil]
    by_cases hx0 : x0 = w
    · subst hx0
      constructor
      · rw [getD_set_ne _ _ _ _ (by omega)]
        exact getD_set_self _ _ _ (by
          rw [fold_row_length]
          omega)
      · exact getD_set_self _ _ _ (by
          rw [List.length_set, fold_row_length]
          omega)
    · have hx' : x0 < w := by omega
      constructor
      · rw [getD_set_ne _ _ _ _ (by omega), getD_set_ne _ _ _ _ (by omega)]
        exact (ih hx').1
      · rw [getD_set_ne _ _ _ _ (by omega), getD_set_ne _ _ _ _ (by omega)]
        exact (ih hx').2

theorem fold_grid_length (w h : Nat) (F G : Nat → Nat → Nat)
    (buf : List Nat) :
    ((List.range h).foldl (fun b y => (List.range w).foldl (fun b2 x =>
      (b2.set (x * 2 + 2 * w * y) (F x y)).set (x * 2 + 2 * w * y + 1)
        (G x y)) b) buf).length = buf.length := by
  induction h with
  | zero => rfl
  | succ h ih =>
    rw [List.range_succ, List.foldl_append]
    simp only [List.foldl_cons, List.foldl_nil]
    rw [fold_row_length, ih]

theorem fold_grid_write (w h : Nat) (F G : Nat → Nat → Nat) (buf : List Nat)
    (x0 y0 : Nat) (hx : x0 < w) (hy : y0 < h)
    (hbuf : 2 * w * h ≤ buf.length) :
    ((List.range h).foldl (fun b y => (List.range w).foldl (fun b2 x =>
      (b2.set (x * 2 + 2 * w * y) (F x y)).set (x * 2 + 2 * w * y + 1)
        (G x y)) b) buf).getD (x0 * 2 + 2 * w * y0) 0 = F x0 y0 ∧
    ((List.range h).foldl (fun b y => (List.range w).foldl (fun b2 x =>
      (b2.set (x * 2 + 2 * w * y) (F x y)).set (x * 2 + 2 * w * y + 1)
        (G x y)) b) buf).getD (x0 * 2 + 2 * w * y0 + 1) 0 = G x0 y0 := by
  induction h with
  | zero => omega
  | succ h ih =>
    rw [List.range_succ, List.foldl_append]
    simp only [List.foldl_cons, List.foldl_nil]
    have e1 : 2 * w * (h + 1) = 2 * w * h + 2 * w := by ring
    by_cases hy0 : y0 = h
    · subst hy0
      exact fold_row_write w (fun x => F x y0) (fun x => G x y0) (2 * w * y0) _
        x0 hx (by rw [fold_grid_length]; omega)
    · have hy' : y0 < h := by omega
      have hmono : 2 * w * (y0 + 1) ≤ 2 * w * h :=
        Nat.mul_le_mul_left (2 * w) (by omega)
      have e2 : 2 * w * (y0 + 1) = 2 * w * y0 + 2 * w := by ring
      constructor
      · rw [fold_row_untouched _ _ _ _ _ _ (Or.inl (by omega))]
        exact (ih hy' (by omega)).1
      · rw [fold_row_untouched _ _ _ _ _ _ (Or.inl (by omega))]
        exact (ih hy' (by omega)).2

/-- C2 (counterexample): a 2-by-1 pure-red image lowers to
[0x00, 0xF8, 0x00, 0xF8], not [0xF8, 0x00, 0xF8, 0x00]: `image_to_buffer`
writes the LOW byte of the 16-bit 5-6-5 color first. -/
theorem image_to_buffer_cex :
    image_to_buffer ⟨2, 1, fun _ _ => (255, 0, 0)⟩ = [0, 248, 0, 248] ∧
    ([0, 248, 0, 248] : List Nat) ≠ [248, 0, 248, 0] := by
  constructor
  · decide
  · decide

/-- C2 (amended): image lowering serializes each pixel's 16-bit 5-6-5 color
LOW byte first at buffer offset (x * depth) + (stride * y) with depth = 2
(the high byte follows at the next offset); a 2-by-1 pure-red image placed
at (0, 0) lowers to [0x00, 0xF8, 0x00, 0xF8]. -/
theorem image_to_buffer_bytes (image : RgbImage) (x y : Nat)
    (hx : x < image.width) (hy : y < image.height) :
    (image_to_buffer image).getD
      (x * PIXEL_DEPTH + (PIXEL_DEPTH * image.width) * y) 0 =
      ((((image.pixel x y).1 >>> 3) <<< 11) |||
        (((image.pixel x y).2.1 >>> 2) <<< 5) |||
        ((image.pixel x y).2.2 >>> 3)) &&& 255 ∧
    (image_to_buffer image).getD
      (x * PIXEL_DEPTH + (PIXEL_DEPTH * image.width) * y + 1) 0 =
      (((((image.pixel x y).1 >>> 3) <<< 11) |||
        (((image.pixel x y).2.1 >>> 2) <<< 5) |||
        ((image.pixel x y).2.2 >>> 3)) >>> 8) % 256 := by
  unfold image_to_buffer
  simp only [PIXEL_DEPTH]
  exact fold_grid_write image.width image.height
    (fun x y => ((((image.pixel x y).1 >>> 3) <<< 11) |||
      (((image.pixel x y).2.1 >>> 2) <<< 5) |||
      ((image.pixel x y).2.2 >>> 3)) &&& 255)
    (fun x y => (((((image.pixel x y).1 >>> 3) <<< 11) |||
      (((image.pixel x y).2.1 >>> 2) <<< 5) |||
      ((image.pixel x y).2.2 >>> 3)) >>> 8) % 256)
    (List.replicate (2 * image.width * image.height) 0) x y hx hy
    (by rw [List.length_replicate])

/-- Witness for C2 (amended) at pixel (1, 0) of the 2-by-1 pure-red image:
the low byte 0x00 sits at offset 2 and the high byte 0xF8 at offset 3. -/
theorem image_to_buffer_bytes_witness :
    (1 < 2 ∧ 0 < 1) ∧
    (image_to_buffer ⟨2, 1, fun _ _ => (255, 0, 0)⟩).getD 2 0 = 0 ∧
    (image_to_buffer ⟨2, 1, fun _ _ => (255, 0, 0)⟩).getD 3 0 = 248 := by
  have h := image_to_buffer_bytes ⟨2, 1, fun _ _ => (255, 0, 0)⟩ 1 0
    (by decide) (by decide)
  exact ⟨⟨by decide, by decide⟩, by simpa using h.1, by simpa using h.2⟩

/-- C10 (counterexample): the point (-1, 300) has a negative coordinate but
does NOT satisfy the near test (its y is ≥ 256): it is placed in the far
subset, not the near subset. -/
theorem negative_coordinate_cex :
    far_source [((-1 : Int), (300 : Int))] = [((-1 : Int), (300 : Int))] ∧
    near_list [((-1 : Int), (300 : Int))] = [] := by
  constructor
  · decide
  · decide

/-- C10 (amended): `draw_pixels` performs no lower-bound check: a point
whose coordinates are both < 256 — in particular any negative coordinate —
passes the near test, is placed in the near subset, and is encoded by a
wrapping cast to one byte (value modulo 256; x = -1 encodes as 255); the
call `draw_pixels color [(-1, 5)]` succeeds and emits the wrapped bytes
(255, 5). -/
theorem draw_pixels_negative_wrap (x y : Int) (hx : x < 256) (hy : y < 256) :
    near_list [(x, y)] = [asU8 x, asU8 y] ∧ far_source [(x, y)] = [] ∧
    asU8 (-1) = 255 ∧
    (draw_pixels ⟨255, 0, 0⟩ [(-1, 5)]).2 = .done ∧
    ((draw_pixels ⟨255, 0, 0⟩ [(-1, 5)]).1.map fun ch =>
      (ch.frame.getD 8 0, ch.frame.getD 9 0)) = [(255, 5)] := by
  have heval := draw_pixels_raw_loop_step 0 0 [255, 5] 0 56 2
    (((List.replicate 64 0).set 6 ((Color.as_serial ⟨255, 0, 0⟩ >>> 8) % 256)).set
      7 (Color.as_serial ⟨255, 0, 0⟩ &&& 255))
    (by decide) (by decide) (by decide) (by decide) (by decide) (by decide)
  rw [draw_pixels_raw_loop_done 0 0 [255, 5] (0 + 2) 2 _ (by decide)] at heval
  refine ⟨?_, ?_, by decide, ?_, ?_⟩
  · simp [near_list, hx, hy]
  · simp [far_source, hx, hy]
  all_goals
    (unfold draw_pixels
     rw [if_neg (by decide)]
     simp only [show near_list [((-1 : Int), (5 : Int))] = [255, 5] from
       by decide,
       show far_source [((-1 : Int), (5 : Int))] = [] from by decide]
     unfold draw_pixels_raw
     rw [heval]
     decide)

/-- Witness for C10 (amended) at the point (-1, 5). -/
theorem draw_pixels_negative_wrap_witness :
    ((-1 : Int) < 256 ∧ (5 : Int) < 256) ∧
    near_list [((-1 : Int), (5 : Int))] = [asU8 (-1), asU8 5] :=
  ⟨⟨by decide, by decide⟩,
    (draw_pixels_negative_wrap (-1) 5 (by decide) (by decide)).1⟩

end Chips
